import Mathlib

/-!
# Verification of the quote-api pricing and signing engine

A shallow embedding of `src/quote-engine.js` (class `QuoteEngine`) of the
quote-api repository, together with proofs of the spec's claims about it.

Conventions of the embedding:
* `decimal.js` values are modelled as exact real numbers (`ℝ`); the spec
  mandates exact decimal arithmetic for all pricing math.
* JavaScript millisecond timestamps (`Date.getTime()`) are modelled as `ℤ`.
* Byte buffers are modelled as `List ℕ` with every entry below 256.
* `keccak256` and the secp256k1 `ecsign` primitive are third-party
  cryptographic black boxes; definitions that need them take them as explicit
  function arguments.  Everything around them (solidity tight packing, the
  personal-message envelope, signature serialization) is embedded concretely,
  following the `ethereumjs-abi` / `ethereumjs-util` semantics the source
  calls into.
* JavaScript exceptions are modelled with `Except`.
-/

namespace QuoteApi

set_option maxRecDepth 8000

/-! ## Byte-level helpers (ethereumjs-abi / ethereumjs-util semantics) -/

/-- Big-endian base-256 digits of `n`, exactly `w` bytes (most significant
first), i.e. `BN.toArrayLike(Buffer, 'be', w)` for an in-range value. -/
def natBytesBE : ℕ → ℕ → List ℕ
  | 0, _ => []
  | w + 1, n => natBytesBE w (n / 256) ++ [n % 256]

/-- The unsigned big-endian value of a byte list (`new BN(buffer)`). -/
def natOfBytesBE (bs : List ℕ) : ℕ :=
  bs.foldl (fun a b => a * 256 + b) 0

/-- Minimal big-endian byte representation of a value below `2^256`,
`BN.toArray()`: no leading zero bytes, except that the value 0 is the
single byte `[0]`. -/
def minimalBE (n : ℕ) : List ℕ :=
  let bs := (natBytesBE 32 (n % 2 ^ 256)).dropWhile (· == 0)
  if bs.isEmpty then [0] else bs

/-- `ethereumjs-util` `setLength(msg, w, right = true)`: right-pad with zero
bytes up to `w`, or truncate to the first `w` bytes. -/
def setLengthRight (w : ℕ) (bs : List ℕ) : List ℕ :=
  if bs.length ≤ w then bs ++ List.replicate (w - bs.length) 0 else bs.take w

/-- `ethereumjs-util` `setLength(msg, w, right = false)`: left-pad with zero
bytes up to `w`, or keep the last `w` bytes. -/
def setLengthLeft (w : ℕ) (bs : List ℕ) : List ℕ :=
  if bs.length ≤ w then List.replicate (w - bs.length) 0 ++ bs else bs.drop (bs.length - w)

/-- ASCII/UTF-8 bytes of a string (all strings involved are ASCII). -/
def utf8Bytes (s : String) : List ℕ := s.data.map Char.toNat

/-- Lowercase hexadecimal digit for a value below 16. -/
def hexDigitChar (n : ℕ) : Char :=
  if n < 10 then Char.ofNat (48 + n) else Char.ofNat (87 + n)

/-- `Buffer.toString('hex')`: two lowercase hexadecimal characters per byte. -/
def hexOfBytes (bs : List ℕ) : String :=
  ⟨bs.foldr (fun b acc => hexDigitChar (b / 16 % 16) :: hexDigitChar (b % 16) :: acc) []⟩

/-- Numeric value of a hexadecimal digit character (0 for anything else). -/
def hexCharVal (c : Char) : ℕ :=
  if 48 ≤ c.toNat ∧ c.toNat ≤ 57 then c.toNat - 48
  else if 97 ≤ c.toNat ∧ c.toNat ≤ 102 then c.toNat - 87
  else if 65 ≤ c.toNat ∧ c.toNat ≤ 70 then c.toNat - 55
  else 0

/-- Successive character pairs read as bytes. -/
def hexPairs : List Char → List ℕ
  | c₁ :: c₂ :: rest => (hexCharVal c₁ * 16 + hexCharVal c₂) :: hexPairs rest
  | _ => []

/-- Hex-string to bytes (`ethereumjs-util` `toBuffer` on a `0x…` string):
strips the `0x` head and reads byte pairs. -/
def hexDecode (s : String) : List ℕ :=
  match s.data with
  | '0' :: 'x' :: rest => hexPairs rest
  | '0' :: 'X' :: rest => hexPairs rest
  | other => hexPairs other

/-- `ethereumjs-util` `fromSigned`: read a 32-byte buffer as a 256-bit two's
complement signed integer (`new BN(buf).fromTwos(256)`). -/
def fromSigned (bs : List ℕ) : ℤ :=
  let n : ℤ := natOfBytesBE bs
  if n < 2 ^ 255 then n else n - 2 ^ 256

/-- `ethereumjs-util` `toUnsigned`: `Buffer.from(num.toTwos(256).toArray())`,
the minimal big-endian bytes of the value reduced modulo `2^256`. -/
def toUnsignedBytes (i : ℤ) : List ℕ :=
  minimalBE (i % (2 : ℤ) ^ 256).toNat

/-- A well-formed `w`-byte buffer: the right length, every entry a byte. -/
def validBuffer (w : ℕ) (bs : List ℕ) : Prop :=
  bs.length = w ∧ ∀ b ∈ bs, b < 256

/-! ## Solidity tight packing (`ethereumjs-abi` `solidityPack`) -/

/-- A typed value as accepted by `solidityPack`; the constructors carry the
width information of the solidity type tag (`uint<8w>`, `bytes<w>`,
`address`). -/
inductive SolValue where
  | uintV (w : ℕ) (n : ℤ)
  | bytesV (w : ℕ) (bs : List ℕ)
  | addressV (bs : List ℕ)

/-- `solidityPack` on one typed value: `uint<8w>` becomes `w` big-endian
bytes, `bytes<w>` is right-padded to `w` bytes, `address` is left-padded to
20 bytes. -/
def packValue : SolValue → List ℕ
  | .uintV w n => natBytesBE w ((n % (2 : ℤ) ^ (8 * w)).toNat)
  | .bytesV w bs => setLengthRight w bs
  | .addressV bs => setLengthLeft 20 bs

/-- `solidityPack` on a list of typed values: tight concatenation of the
individual encodings, no separators and no padding between fields. -/
def solidityPack (parts : List SolValue) : List ℕ :=
  (parts.map packValue).flatten

/-! ## DecimalMath utilities -/

/-- Modelled from the spec: the DecimalMath `min` helper of `src/utils.js`
(the file itself is not in the sources), exact minimum of two decimals. -/
noncomputable def utilsMin (a b : ℝ) : ℝ := min a b

/-- Modelled from the spec: the DecimalMath `max` helper of `src/utils.js`
(the file itself is not in the sources), exact maximum of two decimals. -/
noncomputable def utilsMax (a b : ℝ) : ℝ := max a b

/-! ## QuoteEngine: pricing constants and pure computations -/

/-- `DAYS_PER_YEAR = Decimal('365.25')`. -/
noncomputable def DAYS_PER_YEAR : ℝ := 365.25

/-- `CONTRACT_CAPACITY_LIMIT_PERCENT = Decimal('0.2')`. -/
noncomputable def CONTRACT_CAPACITY_LIMIT_PERCENT : ℝ := 0.2

/-- `COVER_PRICE_SURPLUS_MARGIN = Decimal('0.3')`. -/
noncomputable def COVER_PRICE_SURPLUS_MARGIN : ℝ := 0.3

/-- `QuoteEngine.calculateCapacity(stakedNxm, nxmPriceEth, minCapETH)`:
`min(stakedNxm * nxmPriceEth / 1e18, minCapETH * 0.2)`. -/
noncomputable def calculateCapacity (stakedNxm nxmPriceEth minCapETH : ℝ) : ℝ :=
  let maxGlobalCapacityPerContract := minCapETH * CONTRACT_CAPACITY_LIMIT_PERCENT
  let stakedNxmEthValue := stakedNxm * nxmPriceEth / 1e18
  utilsMin stakedNxmEthValue maxGlobalCapacityPerContract

/-- `QuoteEngine.calculatePrice(coverAmount, risk, surplusMargin,
coverPeriod)`: `coverAmount * risk / 100 * (surplusMargin + 1) / 365.25 *
coverPeriod`, with the operations in the source's order. -/
noncomputable def calculatePrice (coverAmount risk surplusMargin coverPeriod : ℝ) : ℝ :=
  let surplusMultiplier := surplusMargin + 1
  let pricePerDay := coverAmount * risk / 100 * surplusMultiplier / DAYS_PER_YEAR
  pricePerDay * coverPeriod

/-- `QuoteEngine.calculateRisk(netStakedNxm)`:
`max(1, 100 * (1 - (netStakedNxm / 200000e18) ^ (1/7)))`, with the real
power standing for `Decimal.pow` on the exact value. -/
noncomputable def calculateRisk (netStakedNxm : ℝ) : ℝ :=
  let STAKED_HIGH_RISK_COST : ℝ := 100
  let LOW_RISK_COST_LIMIT_NXM : ℝ := 200000 * 1e18
  let PRICING_EXPONENT : ℝ := 7
  let STAKED_LOW_RISK_COST : ℝ := 1
  let exponent := 1 / PRICING_EXPONENT
  let uncappedRiskCost :=
    STAKED_HIGH_RISK_COST * (1 - (netStakedNxm / LOW_RISK_COST_LIMIT_NXM) ^ exponent)
  utilsMax STAKED_LOW_RISK_COST uncappedRiskCost

/-! ## QuoteEngine.calculateQuote -/

/-- The two outcome shapes of `calculateQuote`: the `QuoteUncoverable`
record `{error: 'Uncoverable', generatedAt, expiresAt}` and the
`QuoteCoverable` record with the pricing fields. -/
inductive QuoteData where
  | uncoverable (generatedAt expiresAt : ℤ)
  | coverable (currency : String) (period : ℝ) (amount price priceInNXM : ℝ)
      (expiresAt generatedAt : ℤ)

/-- The `generatedAt` field carried by either outcome shape. -/
def QuoteData.generatedAt : QuoteData → ℤ
  | .uncoverable g _ => g
  | .coverable _ _ _ _ _ _ g => g

/-- The `expiresAt` field carried by either outcome shape. -/
def QuoteData.expiresAt : QuoteData → ℤ
  | .uncoverable _ e => e
  | .coverable _ _ _ _ _ e _ => e

/-- Whether the outcome is the coverable shape (no `error` tag). -/
def QuoteData.isCoverable : QuoteData → Bool
  | .uncoverable _ _ => false
  | .coverable _ _ _ _ _ _ _ => true

/-- The offered `amount` field of a coverable quote, 0 on the uncoverable
shape (which carries no pricing fields). -/
def QuoteData.amountOffered : QuoteData → ℝ
  | .uncoverable _ _ => 0
  | .coverable _ _ a _ _ _ _ => a

/-- `QuoteEngine.calculateQuote`.  `now` is `now.getTime()`, the request's
wall-clock timestamp in milliseconds (`ℤ`); `expiresAt` embeds
`Math.ceil(generatedAt / 1000 + 3600)` as exact ceiling arithmetic. -/
noncomputable def calculateQuote (requestedCoverAmount period : ℝ) (currency : String)
    (coverCurrencyRate nxmPrice netStakedNxm minCapETH : ℝ) (now : ℤ) : QuoteData :=
  let generatedAt := now
  let expiresAt : ℤ := ⌈(now : ℚ) / 1000 + 3600⌉
  if netStakedNxm = 0 then
    .uncoverable generatedAt expiresAt
  else
    let maxCapacity := calculateCapacity netStakedNxm nxmPrice minCapETH
    let requestedCoverAmountInWei := requestedCoverAmount * coverCurrencyRate
    let finalCoverAmountInWei := utilsMin maxCapacity requestedCoverAmountInWei
    let risk := calculateRisk netStakedNxm
    let quotePriceInWei := calculatePrice finalCoverAmountInWei risk COVER_PRICE_SURPLUS_MARGIN period
    let quotePriceInCoverCurrencyWei := quotePriceInWei / coverCurrencyRate * 1e18
    let quotePriceInNxmWei := quotePriceInWei / nxmPrice * 1e18
    let finalCoverInCoverCurrency := finalCoverAmountInWei / coverCurrencyRate
    .coverable currency period finalCoverInCoverCurrency quotePriceInCoverCurrencyWei
      quotePriceInNxmWei expiresAt generatedAt

/-! ## QuoteEngine.signQuote -/

/-- `decimalToBN(value)`: `new BN(value.floor().toString())`, the floor of
the decimal value as an integer. -/
noncomputable def decimalToBN (value : ℝ) : ℤ := ⌊value⌋

/-- The `quotationData` record passed to `signQuote` (a coverable quote
merged with the lower-cased contract address; the address fields are carried
as already-decoded 20-byte values). -/
structure QuotationData where
  amount : ℝ
  currency : String
  period : ℕ
  contract : List ℕ
  price : ℝ
  priceInNXM : ℝ
  expiresAt : ℤ
  generatedAt : ℤ

/-- The result of the secp256k1 `ecsign` primitive: recovery id `v` and the
two 32-byte scalar buffers `r` and `s`. -/
structure EcSig where
  v : ℕ
  r : List ℕ
  s : List ℕ

/-- The signature object returned by `signQuote`: `v` plus the two scalars
serialized as `0x`-headed hexadecimal strings. -/
structure SigStrings where
  v : ℕ
  r : String
  s : String

/-- The `orderParts` list built by `signQuote`, in the source's order with
the source's solidity type tags. -/
noncomputable def orderParts (q : QuotationData) (quotationContractAddress : List ℕ) :
    List SolValue :=
  [ .uintV 32 (decimalToBN q.amount),
    .bytesV 4 (utf8Bytes q.currency),
    .uintV 2 (q.period : ℤ),
    .addressV q.contract,
    .uintV 32 (decimalToBN q.price),
    .uintV 32 (decimalToBN q.priceInNXM),
    .uintV 32 q.expiresAt,
    .uintV 32 q.generatedAt,
    .addressV quotationContractAddress ]

/-- The tightly packed message bytes `signQuote` feeds to `soliditySHA3`. -/
noncomputable def packQuote (q : QuotationData) (quotationContractAddress : List ℕ) : List ℕ :=
  solidityPack (orderParts q quotationContractAddress)

/-- `ethereumjs-util` `hashPersonalMessage`: keccak of the
`"\x19Ethereum Signed Message:\n" ++ <decimal byte length>` header followed
by the message bytes. -/
def hashPersonalMessage (keccak : List ℕ → List ℕ) (message : List ℕ) : List ℕ :=
  keccak (utf8Bytes ("\x19Ethereum Signed Message:\n" ++ toString message.length) ++ message)

/-- The serialization `signQuote` applies to each signature scalar buffer:
`'0x' + util.toUnsigned(util.fromSigned(buf)).toString('hex')`. -/
def scalarHex (bs : List ℕ) : String :=
  "0x" ++ hexOfBytes (toUnsignedBytes (fromSigned bs))

/-- `QuoteEngine.signQuote(quotationData, quotationContractAddress,
privateKey)`, with `keccak` and `ecsign` supplied as cryptographic
primitives.  `soliditySHA3` is keccak of the tight packing. -/
noncomputable def signQuote (keccak : List ℕ → List ℕ) (ecsign : List ℕ → List ℕ → EcSig)
    (q : QuotationData) (quotationContractAddress : List ℕ) (privateKey : List ℕ) :
    SigStrings :=
  let message := keccak (packQuote q quotationContractAddress)
  let msgHash := hashPersonalMessage keccak message
  let sig := ecsign msgHash privateKey
  { v := sig.v, r := scalarHex sig.r, s := scalarHex sig.s }

/-! ## QuoteEngine.validateQuoteParameters (Joi schema semantics) -/

/-- A hexadecimal digit character, either case (`[a-fA-F0-9]`). -/
def isHexDigitChar (c : Char) : Bool :=
  (('0' ≤ c && c ≤ '9') || ('a' ≤ c && c ≤ 'f') || ('A' ≤ c && c ≤ 'F'))

/-- A decimal digit character (`\d`). -/
def isDigitChar (c : Char) : Bool := '0' ≤ c && c ≤ '9'

/-- The `contractAddress` check: `Joi.string().regex(/^0(x|X)[a-fA-F0-9]{40}$/i)`,
a mandatory `0x`/`0X` head followed by exactly 40 hex digits of either case. -/
def contractAddressOk (s : String) : Bool :=
  match s.data with
  | '0' :: c :: rest => (c = 'x' || c = 'X') && rest.length = 40 && rest.all isHexDigitChar
  | _ => false

/-- The `coverAmount` check: `Joi.string().regex(/^\d+$/).min(1)`, a
non-empty string of decimal digits. -/
def coverAmountOk (s : String) : Bool :=
  !s.data.isEmpty && s.data.all isDigitChar && 1 ≤ s.length

/-- The `currency` check: `Joi.string().valid('ETH', 'DAI')`. -/
def currencyOk (s : String) : Bool := s = "ETH" || s = "DAI"

/-- The `period` check: `Joi.number().min(30).max(365)` on the numeric value. -/
def periodOk (p : ℚ) : Bool := 30 ≤ p && p ≤ 365

/-- The four constraints of the quote schema, one label per schema key. -/
inductive Violation where
  | contractAddress
  | coverAmount
  | currency
  | period
deriving DecidableEq

/-- Every violated constraint of a request, in the schema's key order
(`contractAddress`, `coverAmount`, `currency`, `period`). -/
def quoteParamViolations (contractAddress coverAmount currency : String) (period : ℚ) :
    List Violation :=
  (if contractAddressOk contractAddress then [] else [.contractAddress]) ++
  (if coverAmountOk coverAmount then [] else [.coverAmount]) ++
  (if currencyOk currency then [] else [.currency]) ++
  (if periodOk period then [] else [.period])

/-- `QuoteEngine.validateQuoteParameters`: `quoteSchema.validate({...})`
with Joi's default options, whose `abortEarly: true` stops at the first
failing key in schema order; `none` means the request passed, `some v`
reports the single violated constraint Joi puts in `error.details`. -/
def validateQuoteParameters (contractAddress coverAmount currency : String) (period : ℚ) :
    Option Violation :=
  if !contractAddressOk contractAddress then some .contractAddress
  else if !coverAmountOk coverAmount then some .coverAmount
  else if !currencyOk currency then some .currency
  else if !periodOk period then some .period
  else none

/-- The `error.details` list of the Joi validation result: empty on success,
and holding only the first violated constraint otherwise (default
`abortEarly`). -/
def validationErrorDetails (contractAddress coverAmount currency : String) (period : ℚ) :
    List Violation :=
  match validateQuoteParameters contractAddress coverAmount currency period with
  | none => []
  | some v => [v]

/-! ## QuoteEngine.getQuote -/

/-- The two ways a `getQuote` call fails: the explicit
`Invalid parameters provided` throw after validation, and the JavaScript
`TypeError` raised inside `signQuote` when a field it reads
(`quotationData.currency`, first) is `undefined`. -/
inductive JsError where
  | validationError
  | typeError
deriving DecidableEq

/-- The success value of `getQuote`: `{ ...quoteData, contract, v, r, s }`. -/
structure GetQuoteOk where
  quote : QuoteData
  contract : String
  v : ℕ
  r : String
  s : String

/-- `Decimal(coverAmount)` on a validated digit string: its numeric value. -/
def parseDecimal (s : String) : ℕ :=
  s.data.foldl (fun a c => a * 10 + (c.toNat - 48)) 0

/-- `QuoteEngine.getQuote(contractAddress, coverAmount, currency, period)`
after the market snapshot (`currencyRate`, `nxmPrice`, `netStakedNxm`,
`minCapETH`) has been fetched; `now` is the wall clock in milliseconds and
`quotationAddress` the verifying contract's 20 address bytes.  The source
applies `signQuote` to `{ ...quoteData, contract }` unconditionally; when
`quoteData` is the uncoverable shape that record has no `currency` (or
`amount`, …) field, so `Buffer.from(quotationData.currency, 'utf8')` inside
`signQuote` throws a `TypeError`, which the embedding returns as
`.error .typeError`. -/
noncomputable def getQuoteOutcome (keccak : List ℕ → List ℕ)
    (ecsign : List ℕ → List ℕ → EcSig) (privateKey quotationAddress : List ℕ)
    (contractAddress coverAmount currency : String) (period : ℕ)
    (currencyRate nxmPrice netStakedNxm minCapETH : ℝ) (now : ℤ) :
    Except JsError GetQuoteOk :=
  match validateQuoteParameters contractAddress coverAmount currency (period : ℚ) with
  | some _ => .error .validationError
  | none =>
    let upperCasedCurrency := currency.toUpper
    let lowerCasedContractAddress := contractAddress.toLower
    let parsedPeriod := period
    let amount : ℝ := parseDecimal coverAmount
    let quoteData := calculateQuote amount (parsedPeriod : ℝ) upperCasedCurrency
      currencyRate nxmPrice netStakedNxm minCapETH now
    match quoteData with
    | .coverable c _ a pr pn e g =>
      let sig := signQuote keccak ecsign
        ⟨a, c, parsedPeriod, hexDecode lowerCasedContractAddress, pr, pn, e, g⟩
        quotationAddress privateKey
      .ok ⟨quoteData, lowerCasedContractAddress, sig.v, sig.r, sig.s⟩
    | .uncoverable _ _ => .error .typeError

/-! ## Branch lemmas for `calculateQuote` -/

lemma calculateQuote_zero (requestedCoverAmount period : ℝ) (currency : String)
    (coverCurrencyRate nxmPrice minCapETH : ℝ) (now : ℤ) :
    calculateQuote requestedCoverAmount period currency coverCurrencyRate nxmPrice 0
      minCapETH now = .uncoverable now ⌈(now : ℚ) / 1000 + 3600⌉ := by
  unfold calculateQuote
  rw [if_pos rfl]

lemma calculateQuote_ne_zero (requestedCoverAmount period : ℝ) (currency : String)
    (coverCurrencyRate nxmPrice netStakedNxm minCapETH : ℝ) (now : ℤ)
    (h : netStakedNxm ≠ 0) :
    calculateQuote requestedCoverAmount period currency coverCurrencyRate nxmPrice
      netStakedNxm minCapETH now =
    .coverable currency period
      (utilsMin (calculateCapacity netStakedNxm nxmPrice minCapETH)
        (requestedCoverAmount * coverCurrencyRate) / coverCurrencyRate)
      (calculatePrice
        (utilsMin (calculateCapacity netStakedNxm nxmPrice minCapETH)
          (requestedCoverAmount * coverCurrencyRate))
        (calculateRisk netStakedNxm) COVER_PRICE_SURPLUS_MARGIN period
        / coverCurrencyRate * 1e18)
      (calculatePrice
        (utilsMin (calculateCapacity netStakedNxm nxmPrice minCapETH)
          (requestedCoverAmount * coverCurrencyRate))
        (calculateRisk netStakedNxm) COVER_PRICE_SURPLUS_MARGIN period
        / nxmPrice * 1e18)
      ⌈(now : ℚ) / 1000 + 3600⌉ now := by
  unfold calculateQuote
  rw [if_neg h]

/-! ## C3: capacity formula -/

/-- C3: for positive `S`, `P`, `M` the capacity is exactly
`min(S * P / 1e18, M * 0.2)`; the computation is total (no error
conditions), and a zero stake yields zero capacity. -/
theorem capacity_formula (S P M : ℝ) (hS : 0 < S) (hP : 0 < P) (hM : 0 < M) :
    calculateCapacity S P M = min (S * P / 1e18) (M * 0.2) ∧
    calculateCapacity 0 P M = 0 := by
  constructor
  · rfl
  · show utilsMin (0 * P / 1e18) (M * CONTRACT_CAPACITY_LIMIT_PERCENT) = 0
    unfold utilsMin CONTRACT_CAPACITY_LIMIT_PERCENT
    rw [zero_mul, zero_div]
    exact min_eq_left (by positivity)

/-- Witness for `capacity_formula` at `S = 3`, `P = 2`, `M = 5`. -/
theorem capacity_formula_witness :
    (0 : ℝ) < 3 ∧
    (calculateCapacity 3 2 5 = min ((3 : ℝ) * 2 / 1e18) (5 * 0.2) ∧
      calculateCapacity 0 2 5 = 0) :=
  ⟨by norm_num, capacity_formula 3 2 5 (by norm_num) (by norm_num) (by norm_num)⟩

/-! ## C6: expiration timestamps -/

/-- C6: every quote, coverable or uncoverable, carries
`generatedAt = now` and `expiresAt = ceil(generatedAt / 1000 + 3600)`
computed by exact arithmetic, for any generation timestamp. -/
theorem quote_timestamps (requestedCoverAmount period : ℝ) (currency : String)
    (coverCurrencyRate nxmPrice netStakedNxm minCapETH : ℝ) (now : ℤ) :
    (calculateQuote requestedCoverAmount period currency coverCurrencyRate nxmPrice
      netStakedNxm minCapETH now).generatedAt = now ∧
    (calculateQuote requestedCoverAmount period currency coverCurrencyRate nxmPrice
      netStakedNxm minCapETH now).expiresAt = ⌈(now : ℚ) / 1000 + 3600⌉ := by
  rcases eq_or_ne netStakedNxm 0 with h | h
  · subst h
    rw [calculateQuote_zero]
    exact ⟨rfl, rfl⟩
  · rw [calculateQuote_ne_zero _ _ _ _ _ _ _ _ h]
    exact ⟨rfl, rfl⟩

/-- Witness for `quote_timestamps` at a concrete request. -/
theorem quote_timestamps_witness :
    (calculateQuote 1000 100 "ETH" 1e18 1e16 5 7 1579586400000).generatedAt =
      1579586400000 ∧
    (calculateQuote 1000 100 "ETH" 1e18 1e16 5 7 1579586400000).expiresAt =
      ⌈((1579586400000 : ℤ) : ℚ) / 1000 + 3600⌉ :=
  quote_timestamps 1000 100 "ETH" 1e18 1e16 5 7 1579586400000

/-! ## C4: offered amount bounds -/

/-- C4: for a positive requested amount, positive currency rate and positive
net stake, the quote is coverable, the offered amount never exceeds the
requested amount, and the offered amount in wei never exceeds the capacity
of the snapshot. -/
theorem offered_amount_bounds (requestedCoverAmount period : ℝ) (currency : String)
    (coverCurrencyRate nxmPrice netStakedNxm minCapETH : ℝ) (now : ℤ)
    (hreq : 0 < requestedCoverAmount) (hrate : 0 < coverCurrencyRate)
    (hS : 0 < netStakedNxm) :
    (calculateQuote requestedCoverAmount period currency coverCurrencyRate nxmPrice
      netStakedNxm minCapETH now).isCoverable = true ∧
    (calculateQuote requestedCoverAmount period currency coverCurrencyRate nxmPrice
      netStakedNxm minCapETH now).amountOffered ≤ requestedCoverAmount ∧
    (calculateQuote requestedCoverAmount period currency coverCurrencyRate nxmPrice
      netStakedNxm minCapETH now).amountOffered * coverCurrencyRate ≤
      calculateCapacity netStakedNxm nxmPrice minCapETH := by
  rw [calculateQuote_ne_zero _ _ _ _ _ _ _ _ (ne_of_gt hS)]
  refine ⟨rfl, ?_, ?_⟩
  · show utilsMin (calculateCapacity netStakedNxm nxmPrice minCapETH)
      (requestedCoverAmount * coverCurrencyRate) / coverCurrencyRate ≤
        requestedCoverAmount
    rw [div_le_iff₀ hrate]
    exact min_le_right _ _
  · show utilsMin (calculateCapacity netStakedNxm nxmPrice minCapETH)
      (requestedCoverAmount * coverCurrencyRate) / coverCurrencyRate *
      coverCurrencyRate ≤ calculateCapacity netStakedNxm nxmPrice minCapETH
    rw [div_mul_cancel₀ _ (ne_of_gt hrate)]
    exact min_le_left _ _

/-- Witness for `offered_amount_bounds` at a concrete request. -/
theorem offered_amount_bounds_witness :
    (0 : ℝ) < 1000 ∧ (0 : ℝ) < 1e18 ∧ (0 : ℝ) < 5 ∧
    ((calculateQuote 1000 100 "ETH" 1e18 1e16 5 7 0).isCoverable = true ∧
      (calculateQuote 1000 100 "ETH" 1e18 1e16 5 7 0).amountOffered ≤ 1000 ∧
      (calculateQuote 1000 100 "ETH" 1e18 1e16 5 7 0).amountOffered * 1e18 ≤
        calculateCapacity 5 1e16 7) :=
  ⟨by norm_num, by norm_num, by norm_num,
    offered_amount_bounds 1000 100 "ETH" 1e18 1e16 5 7 0
      (by norm_num) (by norm_num) (by norm_num)⟩

/-! ## C9: the uncoverable branch fires only on exactly-zero stake -/

/-- C9: the uncoverable shape is returned iff the net staked collateral is
exactly zero, and for a strictly negative stake the coverable branch runs
the capacity, risk and price computations on the negative value. -/
theorem uncoverable_iff_zero_stake (requestedCoverAmount period : ℝ) (currency : String)
    (coverCurrencyRate nxmPrice netStakedNxm minCapETH : ℝ) (now : ℤ)
    (hneg : netStakedNxm < 0) :
    ((calculateQuote requestedCoverAmount period currency coverCurrencyRate nxmPrice
        netStakedNxm minCapETH now).isCoverable = false ↔ netStakedNxm = 0) ∧
    calculateQuote requestedCoverAmount period currency coverCurrencyRate nxmPrice
        netStakedNxm minCapETH now =
      .coverable currency period
        (utilsMin (calculateCapacity netStakedNxm nxmPrice minCapETH)
          (requestedCoverAmount * coverCurrencyRate) / coverCurrencyRate)
        (calculatePrice
          (utilsMin (calculateCapacity netStakedNxm nxmPrice minCapETH)
            (requestedCoverAmount * coverCurrencyRate))
          (calculateRisk netStakedNxm) COVER_PRICE_SURPLUS_MARGIN period
          / coverCurrencyRate * 1e18)
        (calculatePrice
          (utilsMin (calculateCapacity netStakedNxm nxmPrice minCapETH)
            (requestedCoverAmount * coverCurrencyRate))
          (calculateRisk netStakedNxm) COVER_PRICE_SURPLUS_MARGIN period
          / nxmPrice * 1e18)
        ⌈(now : ℚ) / 1000 + 3600⌉ now := by
  have h : netStakedNxm ≠ 0 := ne_of_lt hneg
  rw [calculateQuote_ne_zero _ _ _ _ _ _ _ _ h]
  refine ⟨?_, rfl⟩
  simp [QuoteData.isCoverable, h]

/-- Witness for `uncoverable_iff_zero_stake` at stake `-1`. -/
theorem uncoverable_iff_zero_stake_witness :
    (-1 : ℝ) < 0 ∧
    (((calculateQuote 1000 100 "ETH" 1e18 1e16 (-1) 7 0).isCoverable = false ↔
        (-1 : ℝ) = 0) ∧
      calculateQuote 1000 100 "ETH" 1e18 1e16 (-1) 7 0 =
        .coverable "ETH" 100
          (utilsMin (calculateCapacity (-1) 1e16 7) (1000 * 1e18) / 1e18)
          (calculatePrice (utilsMin (calculateCapacity (-1) 1e16 7) (1000 * 1e18))
            (calculateRisk (-1)) COVER_PRICE_SURPLUS_MARGIN 100 / 1e18 * 1e18)
          (calculatePrice (utilsMin (calculateCapacity (-1) 1e16 7) (1000 * 1e18))
            (calculateRisk (-1)) COVER_PRICE_SURPLUS_MARGIN 100 / 1e16 * 1e18)
          ⌈((0 : ℤ) : ℚ) / 1000 + 3600⌉ 0) :=
  ⟨by norm_num,
    uncoverable_iff_zero_stake 1000 100 "ETH" 1e18 1e16 (-1) 7 0 (by norm_num)⟩

/-! ## C5: the risk curve -/

/-- C5: the risk of a stake `S₁ > 0` is exactly
`max(1, 100 * (1 - (S₁ / 200000e18) ^ (1/7)))`, the curve is non-increasing
in the stake, and its value lies in `[1, 100]`. -/
theorem risk_curve (S₁ S₂ : ℝ) (h₁ : 0 < S₁) (h₁₂ : S₁ ≤ S₂) :
    calculateRisk S₁ = max 1 (100 * (1 - (S₁ / (200000 * 1e18)) ^ ((1 : ℝ) / 7))) ∧
    calculateRisk S₂ ≤ calculateRisk S₁ ∧
    1 ≤ calculateRisk S₁ ∧ calculateRisk S₁ ≤ 100 := by
  have hbase : (0 : ℝ) ≤ S₁ / (200000 * 1e18) := by positivity
  refine ⟨rfl, ?_, le_max_left _ _, ?_⟩
  · unfold calculateRisk utilsMax
    apply max_le_max le_rfl
    have hmono : (S₁ / (200000 * 1e18)) ^ ((1 : ℝ) / 7) ≤
        (S₂ / (200000 * 1e18)) ^ ((1 : ℝ) / 7) := by
      apply Real.rpow_le_rpow hbase ?_ (by norm_num)
      exact div_le_div_of_nonneg_right h₁₂ (by norm_num)
    nlinarith [hmono]
  · unfold calculateRisk utilsMax
    apply max_le (by norm_num)
    have hnn : (0 : ℝ) ≤ (S₁ / (200000 * 1e18)) ^ ((1 : ℝ) / 7) :=
      Real.rpow_nonneg hbase _
    nlinarith [hnn]

/-- Witness for `risk_curve` at stakes `1` and `2`. -/
theorem risk_curve_witness :
    (0 : ℝ) < 1 ∧
    (calculateRisk 1 = max 1 (100 * (1 - ((1 : ℝ) / (200000 * 1e18)) ^ ((1 : ℝ) / 7))) ∧
      calculateRisk 2 ≤ calculateRisk 1 ∧
      1 ≤ calculateRisk 1 ∧ calculateRisk 1 ≤ 100) :=
  ⟨by norm_num, risk_curve 1 2 (by norm_num) (by norm_num)⟩

/-! ## Characterizations of the individual Joi checks -/

lemma contractAddressOk_iff (s : String) :
    contractAddressOk s = true ↔
      ∃ c rest, s.data = '0' :: c :: rest ∧ (c = 'x' ∨ c = 'X') ∧
        rest.length = 40 ∧ ∀ ch ∈ rest, isHexDigitChar ch = true := by
  unfold contractAddressOk
  rcases hd : s.data with _ | ⟨a, _ | ⟨b, rest⟩⟩
  · simp
  · simp
  · by_cases ha : a = '0'
    · subst ha
      simp only [Bool.and_eq_true, Bool.or_eq_true, decide_eq_true_iff, List.all_eq_true]
      constructor
      · rintro ⟨⟨hxb, hlen⟩, hall⟩
        exact ⟨b, rest, rfl, hxb, by exact_mod_cast hlen, hall⟩
      · rintro ⟨c, rest', heq, hxb, hlen, hall⟩
        obtain ⟨rfl, rfl⟩ : b = c ∧ rest = rest' := by
          have := heq
          simp_all
        exact ⟨⟨hxb, by exact_mod_cast hlen⟩, hall⟩
    · constructor
      · intro h
        exfalso
        revert h
        simp [ha]
      · rintro ⟨c, rest', heq, _⟩
        exact absurd (by simpa using congrArg (·.headI) heq) ha

lemma coverAmountOk_iff (s : String) :
    coverAmountOk s = true ↔ s.data ≠ [] ∧ ∀ ch ∈ s.data, isDigitChar ch = true := by
  unfold coverAmountOk
  simp only [Bool.and_eq_true, Bool.not_eq_true', List.all_eq_true, decide_eq_true_iff]
  constructor
  · rintro ⟨⟨hne, hall⟩, _⟩
    refine ⟨?_, hall⟩
    intro hnil
    rw [hnil] at hne
    simp at hne
  · rintro ⟨hne, hall⟩
    refine ⟨⟨?_, hall⟩, ?_⟩
    · cases hd : s.data with
      | nil => exact absurd hd hne
      | cons a t => simp [hd, List.isEmpty]
    · have hlen : 0 < s.data.length := List.length_pos.mpr hne
      exact hlen

lemma currencyOk_iff (s : String) :
    currencyOk s = true ↔ s = "ETH" ∨ s = "DAI" := by
  unfold currencyOk
  simp

lemma periodOk_iff (p : ℚ) : periodOk p = true ↔ 30 ≤ p ∧ p ≤ 365 := by
  unfold periodOk
  simp

/-! ## C7: what the validator accepts (corrected) -/

/-- C7 counterexample to the claim as stated: a bare 40-hex-digit address
(a 20-byte hexadecimal identifier with the optional prefix omitted) is
rejected by the code, and the digit string "0" (not positive-integer-valued)
is accepted. -/
theorem validator_cex :
    validateQuoteParameters "51042c4d8936a7764d18370a6a0762b860bb8e07" "1000" "ETH" 100 =
      some .contractAddress ∧
    ("51042c4d8936a7764d18370a6a0762b860bb8e07".length = 40 ∧
      ∀ ch ∈ "51042c4d8936a7764d18370a6a0762b860bb8e07".data, isHexDigitChar ch = true) ∧
    validateQuoteParameters "0x51042c4d8936a7764d18370a6a0762b860bb8e07" "0" "ETH" 100 =
      none ∧
    parseDecimal "0" = 0 := by
  refine ⟨by decide, ⟨by decide, by decide⟩, by decide, by decide⟩

/-- C7 amended: the validator accepts a request exactly when the contract
address is `0x`/`0X`-headed (the head is mandatory) followed by exactly 40
case-insensitive hex digits, the cover amount is a non-empty decimal digit
string (zero-valued strings included), the currency is "ETH" or "DAI", and
the period lies within the inclusive bounds 30 to 365. -/
theorem validator_accepts_iff (contractAddress coverAmount currency : String) (p : ℚ) :
    validateQuoteParameters contractAddress coverAmount currency p = none ↔
      ((∃ c rest, contractAddress.data = '0' :: c :: rest ∧ (c = 'x' ∨ c = 'X') ∧
          rest.length = 40 ∧ ∀ ch ∈ rest, isHexDigitChar ch = true) ∧
        (coverAmount.data ≠ [] ∧ ∀ ch ∈ coverAmount.data, isDigitChar ch = true) ∧
        (currency = "ETH" ∨ currency = "DAI") ∧
        (30 ≤ p ∧ p ≤ 365)) := by
  rw [← contractAddressOk_iff, ← coverAmountOk_iff, ← currencyOk_iff, ← periodOk_iff]
  unfold validateQuoteParameters
  split_ifs with h1 h2 h3 h4 <;> simp_all

/-- Witness for `validator_accepts_iff` at a concrete well-formed request. -/
theorem validator_accepts_iff_witness :
    validateQuoteParameters "0x51042c4d8936a7764d18370a6a0762b860bb8e07" "12" "DAI" 50 =
        none ↔
      ((∃ c rest,
          "0x51042c4d8936a7764d18370a6a0762b860bb8e07".data = '0' :: c :: rest ∧
          (c = 'x' ∨ c = 'X') ∧ rest.length = 40 ∧
          ∀ ch ∈ rest, isHexDigitChar ch = true) ∧
        ("12".data ≠ [] ∧ ∀ ch ∈ "12".data, isDigitChar ch = true) ∧
        (("DAI" : String) = "ETH" ∨ ("DAI" : String) = "DAI") ∧
        ((30 : ℚ) ≤ 50 ∧ (50 : ℚ) ≤ 365)) :=
  validator_accepts_iff "0x51042c4d8936a7764d18370a6a0762b860bb8e07" "12" "DAI" 50

/-! ## C8: only the first violation is reported (corrected) -/

/-- C8 counterexample to the claim as stated: a request violating all four
constraints gets an error report holding only the first violated
constraint, not an enumeration of every violation. -/
theorem validation_report_cex :
    quoteParamViolations "zzz" "abc" "BTC" 5 =
      [.contractAddress, .coverAmount, .currency, .period] ∧
    validationErrorDetails "zzz" "abc" "BTC" 5 = [.contractAddress] ∧
    Violation.coverAmount ∉ validationErrorDetails "zzz" "abc" "BTC" 5 := by
  refine ⟨by decide, by decide, by decide⟩

/-- C8 amended: on an input violating more than one constraint, the Joi
validation error reports exactly the first violated constraint in
schema-key order (default `abortEarly`), and in particular is never the
full violation list. -/
theorem validation_report_first_only (contractAddress coverAmount currency : String)
    (p : ℚ) (h : 2 ≤ (quoteParamViolations contractAddress coverAmount currency p).length) :
    validationErrorDetails contractAddress coverAmount currency p =
      (quoteParamViolations contractAddress coverAmount currency p).take 1 ∧
    validationErrorDetails contractAddress coverAmount currency p ≠
      quoteParamViolations contractAddress coverAmount currency p := by
  unfold validationErrorDetails validateQuoteParameters quoteParamViolations at *
  by_cases h1 : contractAddressOk contractAddress <;>
    by_cases h2 : coverAmountOk coverAmount <;>
    by_cases h3 : currencyOk currency <;>
    by_cases h4 : periodOk p <;>
    simp_all

/-- Witness for `validation_report_first_only` on a doubly invalid input. -/
theorem validation_report_first_only_witness :
    2 ≤ (quoteParamViolations "bad" "x" "ETH" 50).length ∧
    (validationErrorDetails "bad" "x" "ETH" 50 =
        (quoteParamViolations "bad" "x" "ETH" 50).take 1 ∧
      validationErrorDetails "bad" "x" "ETH" 50 ≠
        quoteParamViolations "bad" "x" "ETH" 50) :=
  ⟨by decide, validation_report_first_only "bad" "x" "ETH" 50 (by decide)⟩

/-! ## Byte-level lemmas -/

lemma length_natBytesBE (w n : ℕ) : (natBytesBE w n).length = w := by
  induction w generalizing n with
  | zero => rfl
  | succ w ih => simp [natBytesBE, ih]

lemma length_setLengthRight (w : ℕ) (bs : List ℕ) : (setLengthRight w bs).length = w := by
  unfold setLengthRight
  split <;> simp <;> omega

lemma length_setLengthLeft (w : ℕ) (bs : List ℕ) : (setLengthLeft w bs).length = w := by
  unfold setLengthLeft
  split <;> simp <;> omega

lemma drop_append_len {α : Type} (l₁ l₂ : List α) (n k : ℕ) (h : l₁.length = k)
    (hk : k ≤ n) : (l₁ ++ l₂).drop n = l₂.drop (n - k) := by
  rw [List.drop_append_eq_append_drop, List.drop_eq_nil_of_le (by omega), List.nil_append, h]

lemma natOfBytesBE_go (bs : List ℕ) (a : ℕ) :
    bs.foldl (fun x b => x * 256 + b) a =
      a * 256 ^ bs.length + bs.foldl (fun x b => x * 256 + b) 0 := by
  induction bs generalizing a with
  | nil => simp
  | cons b t ih =>
    simp only [List.foldl_cons, List.length_cons]
    rw [ih (a * 256 + b), ih (0 * 256 + b)]
    ring

lemma natOfBytesBE_lt (bs : List ℕ) (hb : ∀ b ∈ bs, b < 256) :
    natOfBytesBE bs < 256 ^ bs.length := by
  induction bs with
  | nil => simp [natOfBytesBE]
  | cons b t ih =>
    have hb' : b < 256 := hb b (List.mem_cons_self _ _)
    have iht := ih fun x hx => hb x (List.mem_cons_of_mem _ hx)
    unfold natOfBytesBE at *
    simp only [List.foldl_cons, List.length_cons]
    rw [natOfBytesBE_go t (0 * 256 + b), show 0 * 256 + b = b by omega]
    have hpow : (b + 1) * 256 ^ t.length ≤ 256 ^ (t.length + 1) := by
      rw [pow_succ]
      calc (b + 1) * 256 ^ t.length = 256 ^ t.length * (b + 1) := by ring
        _ ≤ 256 ^ t.length * 256 := by
            exact Nat.mul_le_mul_left _ (by omega)
    calc b * 256 ^ t.length + t.foldl (fun x y => x * 256 + y) 0
        < b * 256 ^ t.length + 256 ^ t.length := by omega
      _ = (b + 1) * 256 ^ t.length := by ring
      _ ≤ 256 ^ (t.length + 1) := hpow

lemma toUnsigned_fromSigned (bs : List ℕ) (h : validBuffer 32 bs) :
    toUnsignedBytes (fromSigned bs) = minimalBE (natOfBytesBE bs) := by
  obtain ⟨hlen, hb⟩ := h
  have hlt : natOfBytesBE bs < 256 ^ 32 := hlen ▸ natOfBytesBE_lt bs hb
  have hlt' : (natOfBytesBE bs : ℤ) < 2 ^ 256 := by
    have h2 : (256 : ℕ) ^ 32 = 2 ^ 256 := by norm_num
    exact_mod_cast h2 ▸ hlt
  have h0 : (0 : ℤ) ≤ (natOfBytesBE bs : ℤ) := Int.natCast_nonneg _
  unfold fromSigned toUnsignedBytes
  by_cases hc : (natOfBytesBE bs : ℤ) < 2 ^ 255
  · rw [if_pos hc, Int.emod_eq_of_lt h0 hlt']
    simp
  · rw [if_neg hc]
    have hm : ((natOfBytesBE bs : ℤ) - 2 ^ 256) % 2 ^ 256 = (natOfBytesBE bs : ℤ) % 2 ^ 256 := by
      rw [Int.sub_emod, Int.emod_self, sub_zero, Int.emod_emod_of_dvd _ dvd_rfl]
    rw [hm, Int.emod_eq_of_lt h0 hlt']
    simp

/-- The tight packing of the nine `orderParts` fields as an explicit
concatenation of segments (widths 32, 4, 2, 20, 32, 32, 32, 32, 20). -/
lemma packQuote_split (q : QuotationData) (addr : List ℕ) :
    packQuote q addr =
      natBytesBE 32 ((decimalToBN q.amount % 2 ^ 256).toNat) ++
      (setLengthRight 4 (utf8Bytes q.currency) ++
      (natBytesBE 2 (((q.period : ℤ) % 2 ^ 16).toNat) ++
      (setLengthLeft 20 q.contract ++
      (natBytesBE 32 ((decimalToBN q.price % 2 ^ 256).toNat) ++
      (natBytesBE 32 ((decimalToBN q.priceInNXM % 2 ^ 256).toNat) ++
      (natBytesBE 32 ((q.expiresAt % 2 ^ 256).toNat) ++
      (natBytesBE 32 ((q.generatedAt % 2 ^ 256).toNat) ++
      setLengthLeft 20 addr))))))) := by
  simp only [packQuote, solidityPack, orderParts, List.map_cons, List.map_nil,
    List.flatten_cons, List.flatten_nil, packValue, List.append_nil]

lemma packQuote_length (q : QuotationData) (addr : List ℕ) :
    (packQuote q addr).length = 206 := by
  rw [packQuote_split]
  simp [List.length_append, length_natBytesBE, length_setLengthRight, length_setLengthLeft]

/-! ## C10: the signature binds floors of the decimal fields -/

/-- C10: in the packed message, the 32-byte segments at offsets 0, 58 and 90
hold the `uint256` encodings of the floors of the quote's decimal `amount`,
`price` and `priceInNXM`, so a non-integral field is signed as its
truncation, not as the exact decimal returned to the caller. -/
theorem signed_values_are_floors (q : QuotationData) (addr : List ℕ)
    (hfr : Int.fract q.amount ≠ 0) :
    (packQuote q addr).take 32 = natBytesBE 32 ((⌊q.amount⌋ % 2 ^ 256).toNat) ∧
    ((packQuote q addr).drop 58).take 32 = natBytesBE 32 ((⌊q.price⌋ % 2 ^ 256).toNat) ∧
    ((packQuote q addr).drop 90).take 32 =
      natBytesBE 32 ((⌊q.priceInNXM⌋ % 2 ^ 256).toNat) ∧
    (⌊q.amount⌋ : ℝ) ≠ q.amount := by
  refine ⟨?_, ?_, ?_, ?_⟩
  · rw [packQuote_split, List.take_left' (length_natBytesBE 32 _)]
    rfl
  · rw [packQuote_split,
      drop_append_len _ _ 58 32 (length_natBytesBE 32 _) (by norm_num),
      drop_append_len _ _ 26 4 (length_setLengthRight 4 _) (by norm_num),
      drop_append_len _ _ 22 2 (length_natBytesBE 2 _) (by norm_num),
      drop_append_len _ _ 20 20 (length_setLengthLeft 20 _) (by norm_num)]
    norm_num
    rw [List.take_left' (length_natBytesBE 32 _)]
    rfl
  · rw [packQuote_split,
      drop_append_len _ _ 90 32 (length_natBytesBE 32 _) (by norm_num),
      drop_append_len _ _ 58 4 (length_setLengthRight 4 _) (by norm_num),
      drop_append_len _ _ 54 2 (length_natBytesBE 2 _) (by norm_num),
      drop_append_len _ _ 52 20 (length_setLengthLeft 20 _) (by norm_num),
      drop_append_len _ _ 32 32 (length_natBytesBE 32 _) (by norm_num)]
    norm_num
    rw [List.take_left' (length_natBytesBE 32 _)]
    rfl
  · intro heq
    apply hfr
    rw [Int.fract, heq, sub_self]

/-- A coverable quote with a non-integral amount, for the C10 witness. -/
noncomputable def qFrac : QuotationData :=
  ⟨3.5, "ETH", 100, List.replicate 20 7, 2.25, 0.5, 1000, 2000⟩

/-- A 20-byte verifying-contract address for the C10 witness. -/
def addrNine : List ℕ := List.replicate 20 9

/-- Witness for `signed_values_are_floors` on a quote with amount `3.5`. -/
theorem signed_values_are_floors_witness :
    Int.fract qFrac.amount ≠ 0 ∧ (⌊qFrac.amount⌋ : ℝ) ≠ qFrac.amount := by
  have h : Int.fract qFrac.amount ≠ 0 := by
    show Int.fract (3.5 : ℝ) ≠ 0
    rw [Int.fract]
    norm_num
  exact ⟨h, (signed_values_are_floors qFrac addrNine h).2.2.2⟩

/-! ## C2: the signing byte layout (corrected) -/

/-- A keccak stand-in returning a fixed 32-byte digest, for concrete
evaluations of the packing pipeline. -/
def keccakZero : List ℕ → List ℕ := fun _ => List.replicate 32 0

/-- An ecsign stand-in returning the scalar value 1 in both 32-byte
buffers. -/
def ecsignOne : List ℕ → List ℕ → EcSig :=
  fun _ _ => ⟨27, List.replicate 31 0 ++ [1], List.replicate 31 0 ++ [1]⟩

/-- A concrete coverable quote whose numeric fields are zero. -/
def qZero : QuotationData := ⟨0, "ETH", 30, List.replicate 20 0, 0, 0, 0, 0⟩

/-- A concrete all-zero 20-byte verifying-contract address. -/
def addrZero : List ℕ := List.replicate 20 0

/-- C2 counterexample to the claim as stated: the four currency bytes of the
packed message are the ASCII code right-padded with a zero byte
(`[0x45, 0x54, 0x48, 0x00]` for "ETH"), not left-padded, and a signature
scalar serializes to a minimal-width hexadecimal string ("0x01" for the
scalar 1, 4 characters), not to a fixed-width 64-digit one. -/
theorem signing_encoding_cex :
    ((packQuote qZero addrZero).drop 32).take 4 = [69, 84, 72, 0] ∧
    [(69 : ℕ), 84, 72, 0] ≠ [0, 69, 84, 72] ∧
    (signQuote keccakZero ecsignOne qZero addrZero []).r = "0x01" ∧
    ("0x01").length ≠ 66 := by
  have h0 : decimalToBN (0 : ℝ) = 0 := by simp [decimalToBN]
  refine ⟨?_, by decide, ?_, by decide⟩
  · rw [packQuote_split]
    simp only [qZero, h0]
    rw [drop_append_len _ _ 32 32 (length_natBytesBE 32 _) (by norm_num)]
    norm_num
    rw [List.take_left' (length_setLengthRight 4 _)]
    decide
  · have hr : (signQuote keccakZero ecsignOne qZero addrZero []).r =
        scalarHex (List.replicate 31 0 ++ [1]) := rfl
    rw [hr]
    decide

/-- C2 amended: the packed message is exactly the tight concatenation of the
nine fields in order with widths 32, 4, 2, 20, 32, 32, 32, 32, 20 (total
206 bytes, no padding between fields), where the `bytes4` currency is the
ASCII code right-padded with zero bytes; the digest signed is the keccak
hash of the standard personal-message header (prefix and decimal length 32)
followed by the keccak hash of the packed message; and each signature
scalar is serialized as the hexadecimal string of its minimal-length
big-endian byte representation (fixed 64 digits only when the scalar's top
byte is nonzero). -/
theorem signing_encoding (keccak : List ℕ → List ℕ) (ecsign : List ℕ → List ℕ → EcSig)
    (q : QuotationData) (addr key : List ℕ)
    (hcur : q.currency = "ETH" ∨ q.currency = "DAI")
    (hk : ∀ bs, (keccak bs).length = 32)
    (hr : validBuffer 32
      (ecsign (hashPersonalMessage keccak (keccak (packQuote q addr))) key).r)
    (hs : validBuffer 32
      (ecsign (hashPersonalMessage keccak (keccak (packQuote q addr))) key).s) :
    packQuote q addr =
      natBytesBE 32 ((decimalToBN q.amount % 2 ^ 256).toNat) ++
      ((utf8Bytes q.currency ++ [0]) ++
      (natBytesBE 2 (((q.period : ℤ) % 2 ^ 16).toNat) ++
      (setLengthLeft 20 q.contract ++
      (natBytesBE 32 ((decimalToBN q.price % 2 ^ 256).toNat) ++
      (natBytesBE 32 ((decimalToBN q.priceInNXM % 2 ^ 256).toNat) ++
      (natBytesBE 32 ((q.expiresAt % 2 ^ 256).toNat) ++
      (natBytesBE 32 ((q.generatedAt % 2 ^ 256).toNat) ++
      setLengthLeft 20 addr))))))) ∧
    (packQuote q addr).length = 206 ∧
    hashPersonalMessage keccak (keccak (packQuote q addr)) =
      keccak (utf8Bytes "\x19Ethereum Signed Message:\n32" ++ keccak (packQuote q addr)) ∧
    (signQuote keccak ecsign q addr key).r =
      "0x" ++ hexOfBytes (minimalBE (natOfBytesBE
        (ecsign (hashPersonalMessage keccak (keccak (packQuote q addr))) key).r)) ∧
    (signQuote keccak ecsign q addr key).s =
      "0x" ++ hexOfBytes (minimalBE (natOfBytesBE
        (ecsign (hashPersonalMessage keccak (keccak (packQuote q addr))) key).s)) := by
  have hcurbytes : setLengthRight 4 (utf8Bytes q.currency) = utf8Bytes q.currency ++ [0] := by
    obtain hc | hc := hcur <;> rw [hc] <;> decide
  refine ⟨?_, packQuote_length q addr, ?_, ?_, ?_⟩
  · rw [packQuote_split, hcurbytes]
  · unfold hashPersonalMessage
    rw [hk (packQuote q addr),
      show ("\x19Ethereum Signed Message:\n" ++ toString (32 : ℕ)) =
        "\x19Ethereum Signed Message:\n32" by decide]
  · show scalarHex (ecsign (hashPersonalMessage keccak (keccak (packQuote q addr))) key).r =
      _
    unfold scalarHex
    rw [toUnsigned_fromSigned _ hr]
  · show scalarHex (ecsign (hashPersonalMessage keccak (keccak (packQuote q addr))) key).s =
      _
    unfold scalarHex
    rw [toUnsigned_fromSigned _ hs]

/-- Witness for `signing_encoding` with the concrete stand-ins. -/
theorem signing_encoding_witness :
    (qZero.currency = "ETH" ∨ qZero.currency = "DAI") ∧
    (∀ bs, (keccakZero bs).length = 32) ∧
    (packQuote qZero addrZero).length = 206 :=
  ⟨Or.inl rfl, fun _ => rfl,
    (signing_encoding keccakZero ecsignOne qZero addrZero [] (Or.inl rfl)
      (fun _ => rfl) ⟨by decide, by decide⟩ ⟨by decide, by decide⟩).2.1⟩

/-! ## C1: getQuote signs unconditionally, even uncoverable quotes -/

/-- C1: at a valid zero-collateral request, `calculateQuote` does produce
the uncoverable shape with correct timestamps, but `getQuote` then hands it
to `signQuote` anyway (there is no guard), where reading the absent
`currency` field throws a `TypeError`; the request therefore produces an
exception, not the plain `{error, generatedAt, expiresAt}` record, and
`signQuote` is applied to an uncoverable quote. -/
theorem uncoverable_quote_is_signed :
    calculateQuote 1000 100 "ETH" 1e18 1e16 0 (13500 * 1e18) 1579586400000 =
      QuoteData.uncoverable 1579586400000 1579590000 ∧
    getQuoteOutcome keccakZero ecsignOne [] addrZero
      "0x51042c4d8936a7764d18370a6a0762b860bb8e07" "1000" "ETH" 100
      1e18 1e16 0 (13500 * 1e18) 1579586400000 = .error .typeError := by
  have hceil : (⌈((1579586400000 : ℤ) : ℚ) / 1000 + 3600⌉ : ℤ) = 1579590000 := by
    rw [show (((1579586400000 : ℤ) : ℚ) / 1000 + 3600) = ((1579590000 : ℤ) : ℚ) by
        norm_num,
      Int.ceil_intCast]
  constructor
  · rw [calculateQuote_zero, hceil]
  · have hv : validateQuoteParameters "0x51042c4d8936a7764d18370a6a0762b860bb8e07"
        "1000" "ETH" ((100 : ℕ) : ℚ) = none := by decide
    unfold getQuoteOutcome
    rw [hv]
    simp only [calculateQuote_zero]

end QuoteApi
